import Mathlib

/-!
Verification of the Meditative Water Ripples simulation (src/main.py).

The program is a single-file water-ripple toy: a discrete wave equation on a
2D grid advanced by `Ripples.step`, perturbed by `Ripples.disturb` (pointer
and audio events), shaded per frame with an optional normal-map lighting pass
and a day/night palette blend.

Shallow embedding conventions:
* numpy float arrays become functions out of a finite index type; the
  wave-field grids are indexed by `ZMod h × ZMod w` because `np.roll`
  implements toroidal (wraparound) indexing, which is exactly `ZMod`
  arithmetic; the shading pipeline treats the height map as a plain
  positionally-indexed array, so there it is `Fin h → Fin w → ℝ`.
* floating-point arithmetic is modelled exactly: by `ℚ` where the program
  only uses field operations, and by `ℝ` where `sqrt`/`sin` appear.
* `random.randint` is modelled as an oracle stream of positions; its contract
  (results lie in the requested range) becomes a hypothesis where needed.
-/

set_option maxRecDepth 100000

/-- Display width constant from src/main.py line 17. -/
def WIDTH : ℕ := 800

/-- Display height constant from src/main.py line 17. -/
def HEIGHT : ℕ := 600

/-- Damping constant from src/main.py line 18. -/
def DAMPING : ℚ := 0.995

/-- A height grid: row-major 2D array of scalars with toroidal index
arithmetic, indexed by (row, column) = (y, x). -/
abbrev Grid (α : Type) (h w : ℕ) := ZMod h × ZMod w → α

/-- The `Ripples` class state (src/main.py lines 32-37): two equal-size
height buffers. -/
@[ext]
structure Ripples (α : Type) (h w : ℕ) where
  current : Grid α h w
  previous : Grid α h w

/-- `Ripples.__init__` (src/main.py lines 33-37): both buffers start all
zero. Argument order (w, h) follows the source constructor; the buffers are
allocated with shape (h, w). -/
def Ripples.init (α : Type) [LinearOrderedField α] (w h : ℕ) : Ripples α h w :=
  { current := fun _ => 0, previous := fun _ => 0 }

/-- `np.roll(g, s, axis=0)`: entry at row y is the input entry at row y - s,
with wraparound. -/
def rollAxis0 {α : Type} {h w : ℕ} (g : Grid α h w) (s : ℤ) : Grid α h w :=
  fun p => g (p.1 - (s : ZMod h), p.2)

/-- `np.roll(g, s, axis=1)`: entry at column x is the input entry at column
x - s, with wraparound. -/
def rollAxis1 {α : Type} {h w : ℕ} (g : Grid α h w) (s : ℤ) : Grid α h w :=
  fun p => g (p.1, p.2 - (s : ZMod w))

/-- The Laplacian expression of `Ripples.step` (src/main.py lines 41-47). -/
def Ripples.lap {α : Type} [LinearOrderedField α] {h w : ℕ} (r : Ripples α h w) : Grid α h w :=
  fun p =>
    rollAxis0 r.current 1 p + rollAxis0 r.current (-1) p
      + rollAxis1 r.current 1 p + rollAxis1 r.current (-1) p
      - 4 * r.current p

/-- `Ripples.step` (src/main.py lines 39-51): leapfrog update
`new = (2*current - previous + 0.5*lap) * DAMPING`, then the buffers rotate. -/
def Ripples.step {α : Type} [LinearOrderedField α] {h w : ℕ} (r : Ripples α h w) : Ripples α h w :=
  { current := fun p => (2 * r.current p - r.previous p + 0.5 * r.lap p) * (DAMPING : α)
    previous := r.current }

/-- `Ripples.disturb` (src/main.py lines 53-55): add `magnitude` to
`current[y, x]` when `0 <= x < w and 0 <= y < h`, otherwise do nothing. -/
def Ripples.disturb {α : Type} [LinearOrderedField α] {h w : ℕ}
    (r : Ripples α h w) (x y : ℤ) (magnitude : α) : Ripples α h w :=
  if 0 ≤ x ∧ x < (w : ℤ) ∧ 0 ≤ y ∧ y < (h : ℤ) then
    { r with current := fun p =>
        if p = ((y : ZMod h), (x : ZMod w)) then r.current p + magnitude else r.current p }
  else r

/-- Total field energy: the sum of the squared cell values of `current`
(the quantity named in the spec's damping invariant). -/
def energy {h w : ℕ} [NeZero h] [NeZero w] (r : Ripples ℚ h w) : ℚ :=
  ∑ p : ZMod h × ZMod w, (r.current p) ^ 2

/-- Sum of pointwise products of two grids (a finite inner product, used by
the Lyapunov analysis of `Ripples.step`). -/
def dotSum {h w : ℕ} [NeZero h] [NeZero w] (f g : Grid ℚ h w) : ℚ :=
  ∑ p : ZMod h × ZMod w, f p * g p

/-- Half the sum of the four orthogonal neighbors. `Ripples.step` rewrites
as `current' = (halfNb current - previous) * DAMPING`. -/
def halfNb {h w : ℕ} (g : Grid ℚ h w) : Grid ℚ h w :=
  fun p => (g (p.1 - 1, p.2) + g (p.1 + 1, p.2) + g (p.1, p.2 - 1) + g (p.1, p.2 + 1)) / 2

/-- Lyapunov quantity of a wave-field state: it contracts by exactly
`DAMPING` at every `Ripples.step` and dominates `energy` up to the factor
`1 - DAMPING`. -/
def lyapunov {h w : ℕ} [NeZero h] [NeZero w] (r : Ripples ℚ h w) : ℚ :=
  dotSum r.current r.current - DAMPING * dotSum r.current (halfNb r.previous)
    + DAMPING * dotSum r.previous r.previous

/-- A 3-tuple row of integers (one row of a 3×3 grid). -/
abbrev IT3 := ℤ × ℤ × ℤ

/-- A 3×3 integer grid as nested tuples, used as an executable mirror of a
3×3 wave field scaled by `400 ^ step`. -/
abbrev IM3 := IT3 × IT3 × IT3

/-- One `Ripples.step` of a 3×3 field in the integer scaling: if the real
state at step n is `U / 400 ^ n`, the next numerator is
`398*(2*U - V) + 199*lap(U)` (this is `(2u - v + 0.5*lap(u)) * (199/200)`
multiplied through by `400 ^ (n+1)`), with wraparound neighbors on 3. -/
def istep (a b : IM3) : IM3 :=
  match a, b with
  | ((a00,a01,a02),(a10,a11,a12),(a20,a21,a22)),
    ((b00,b01,b02),(b10,b11,b12),(b20,b21,b22)) =>
    ((398*(2*a00 - b00) + 199*(a20 + a10 + a02 + a01 - 4*a00),
      398*(2*a01 - b01) + 199*(a21 + a11 + a00 + a02 - 4*a01),
      398*(2*a02 - b02) + 199*(a22 + a12 + a01 + a00 - 4*a02)),
     (398*(2*a10 - b10) + 199*(a00 + a20 + a12 + a11 - 4*a10),
      398*(2*a11 - b11) + 199*(a01 + a21 + a10 + a12 - 4*a11),
      398*(2*a12 - b12) + 199*(a02 + a22 + a11 + a10 - 4*a12)),
     (398*(2*a20 - b20) + 199*(a10 + a00 + a22 + a21 - 4*a20),
      398*(2*a21 - b21) + 199*(a11 + a01 + a20 + a22 - 4*a21),
      398*(2*a22 - b22) + 199*(a12 + a02 + a21 + a20 - 4*a22)))

/-- Scale every entry of a 3×3 integer grid. -/
def ismul (c : ℤ) (a : IM3) : IM3 :=
  match a with
  | ((a00,a01,a02),(a10,a11,a12),(a20,a21,a22)) =>
    ((c*a00,c*a01,c*a02),(c*a10,c*a11,c*a12),(c*a20,c*a21,c*a22))

/-- Integer-scaled trajectory of the 3×3 field obtained by disturbing the
all-zero field at (x, y) = (1, 1) with magnitude 1: the true state at step n
is this pair divided by `400 ^ n`. -/
def istate : ℕ → IM3 × IM3
  | 0 => (((0,0,0),(0,1,0),(0,0,0)), ((0,0,0),(0,0,0),(0,0,0)))
  | n+1 => (istep (istate n).1 (istate n).2, ismul 400 (istate n).1)

/-- Sum of squares of a 3×3 integer grid. -/
def ienergy (a : IM3) : ℤ :=
  match a with
  | ((a00,a01,a02),(a10,a11,a12),(a20,a21,a22)) =>
    a00^2 + a01^2 + a02^2 + a10^2 + a11^2 + a12^2 + a20^2 + a21^2 + a22^2

/-- Three-way selector on a `ZMod 3` index. -/
def pick3 {β : Type} (j : ZMod 3) (x y z : β) : β :=
  if j = 0 then x else if j = 1 then y else z

/-- View a 3×3 integer tuple grid as a toroidal grid function. -/
def ofIM3 (m : IM3) : ZMod 3 × ZMod 3 → ℤ :=
  match m with
  | ((a00,a01,a02),(a10,a11,a12),(a20,a21,a22)) =>
    fun p => pick3 p.1 (pick3 p.2 a00 a01 a02) (pick3 p.2 a10 a11 a12) (pick3 p.2 a20 a21 a22)

/-- Python `int()` on an exact rational: truncation toward zero. -/
def pyInt (q : ℚ) : ℤ := if 0 ≤ q then ⌊q⌋ else ⌈q⌉

/-- `np.clip(x, lo, hi) = np.minimum(hi, np.maximum(lo, x))`. -/
def npClip {β : Type} [LinearOrder β] (x lo hi : β) : β := min hi (max lo x)

/-- Entry of a positionally indexed array at natural coordinates, 0 outside
the array (all uses below stay in range for the sizes the program uses). -/
noncomputable def cellVal {hh ww : ℕ} (a : Fin hh → Fin ww → ℝ) (i j : ℕ) : ℝ :=
  if hi : i < hh then if hj : j < ww then a ⟨i, hi⟩ ⟨j, hj⟩ else 0 else 0

/-- `np.gradient(a)[0]` (axis 0, rows, default edge_order=1): one-sided
differences at the first and last row, central differences `(next-prev)/2`
in the interior. `np.gradient` raises for fewer than 2 rows; that case is
modelled as 0 and never arises in the program (its grid is 600×800). -/
noncomputable def npGradient0 {hh ww : ℕ} (a : Fin hh → Fin ww → ℝ) (i : Fin hh) (j : Fin ww) : ℝ :=
  if hh ≤ 1 then 0
  else if i.val = 0 then cellVal a 1 j.val - cellVal a 0 j.val
  else if i.val = hh - 1 then cellVal a (hh-1) j.val - cellVal a (hh-2) j.val
  else (cellVal a (i.val+1) j.val - cellVal a (i.val-1) j.val) / 2

/-- `np.gradient(a)[1]` (axis 1, columns): same scheme along each row. -/
noncomputable def npGradient1 {hh ww : ℕ} (a : Fin hh → Fin ww → ℝ) (i : Fin hh) (j : Fin ww) : ℝ :=
  if ww ≤ 1 then 0
  else if j.val = 0 then cellVal a i.val 1 - cellVal a i.val 0
  else if j.val = ww - 1 then cellVal a i.val (ww-1) - cellVal a i.val (ww-2)
  else (cellVal a i.val (j.val+1) - cellVal a i.val (j.val-1)) / 2

/-- Per-cell lighting scalar of the shading block (src/main.py lines
168-183): with normal shading on, the surface normal `(-gx, -gy, 0.5)` is
divided by `sqrt(nx²+ny²+nz²) + 1e-8`, dotted with the normalized light
direction `(0.5, -0.5, 1.0)/|…|`, and clipped to [0, 1]; with shading off it
is the constant 0.7. -/
noncomputable def lighting {hh ww : ℕ} (a : Fin hh → Fin ww → ℝ) (normal_shading : Bool)
    (i : Fin hh) (j : Fin ww) : ℝ :=
  if normal_shading then
    let gx := npGradient1 a i j
    let gy := npGradient0 a i j
    let nx := -gx
    let ny := -gy
    let nz : ℝ := 0.5
    let norm := Real.sqrt (nx * nx + ny * ny + nz * nz) + 1e-8
    let nx := nx / norm
    let ny := ny / norm
    let nz := nz / norm
    let lnorm := Real.sqrt (0.5 * 0.5 + (-0.5) * (-0.5) + 1.0 * 1.0)
    let lx := 0.5 / lnorm
    let ly := (-0.5) / lnorm
    let lz := 1.0 / lnorm
    npClip (nx * lx + ny * ly + nz * lz) 0.0 1.0
  else 0.7

/-- Modelled from the spec (claim C5 wording), for comparison with the
code's `lighting`: the same gradients and light direction, but with the
surface normal normalized exactly (divided by its norm, with no 1e-8
guard). -/
noncomputable def lightingSpec {hh ww : ℕ} (a : Fin hh → Fin ww → ℝ) (normal_shading : Bool)
    (i : Fin hh) (j : Fin ww) : ℝ :=
  if normal_shading then
    let gx := npGradient1 a i j
    let gy := npGradient0 a i j
    let nx := -gx
    let ny := -gy
    let nz : ℝ := 0.5
    let nlen := Real.sqrt (nx * nx + ny * ny + nz * nz)
    let lnorm := Real.sqrt (0.5 * 0.5 + (-0.5) * (-0.5) + 1.0 * 1.0)
    npClip ((nx / nlen) * (0.5 / lnorm) + (ny / nlen) * ((-0.5) / lnorm)
      + (nz / nlen) * (1.0 / lnorm)) 0.0 1.0
  else 0.7

/-- Day palette (src/main.py line 162). -/
noncomputable def dayPalette : Fin 3 → ℝ := ![200, 230, 255]

/-- Night palette (src/main.py line 163). -/
noncomputable def nightPalette : Fin 3 → ℝ := ![20, 30, 60]

/-- The per-frame RGB buffer of the shading block (src/main.py lines
159-198) as a function of the height-map snapshot, the blend factor t, the
intensity scale and the normal-shading flag: palette interpolation, height
tint, lighting term, clip to [0, 255] and uint8 truncation. -/
noncomputable def render {hh ww : ℕ} (height_map : Fin hh → Fin ww → ℝ)
    (t intensity : ℝ) (normal_shading : Bool) : Fin hh → Fin ww → Fin 3 → ℤ :=
  fun i j c =>
    let base_col := (1 - t) * dayPalette c + t * nightPalette c
    let dot := lighting height_map normal_shading i j
    let hnorm := npClip (height_map i j * intensity / 10.0) (-1.0) 1.0
    let tint := ![60 * hnorm, 80 * hnorm, 120 * (-hnorm)] c
    ⌊npClip (base_col + tint + dot * 80.0) 0 255⌋

/-- `math.hypot`. -/
noncomputable def hypot (x y : ℝ) : ℝ := Real.sqrt (x ^ 2 + y ^ 2)

/-- The MOUSEMOTION-while-pressed handler (src/main.py lines 111-118):
with a recorded previous sample, disturb at the pointer with magnitude
`min(100, hypot(dx, dy)) * 0.5` and record the new sample; with none
recorded, only record the sample. Returns (new last_mouse, new field). -/
noncomputable def motionPressed {h w : ℕ} (last_mouse : Option (ℤ × ℤ)) (mx my : ℤ)
    (ripples : Ripples ℝ h w) : Option (ℤ × ℤ) × Ripples ℝ h w :=
  match last_mouse with
  | some lm =>
      let dx := mx - lm.1
      let dy := my - lm.2
      let mag := min (100 : ℝ) (hypot (dx : ℝ) (dy : ℝ))
      (some (mx, my), ripples.disturb mx my (mag * 0.5))
  | none => (some (mx, my), ripples)

/-- The MOUSEBUTTONUP handler (src/main.py lines 119-120): clear the
recorded drag sample. -/
def buttonUp (_last_mouse : Option (ℤ × ℤ)) : Option (ℤ × ℤ) := none

/-- The day/night phase advance (src/main.py line 146): `day_time += 0.005`
once per tick. -/
noncomputable def dayAdvance (day_time : ℝ) : ℝ := day_time + 0.005

/-- The day/night blend factor (src/main.py line 147):
`t = (sin(day_time) + 1) / 2`. -/
noncomputable def blendFactor (day_time : ℝ) : ℝ := (Real.sin day_time + 1) / 2

/-- The list of disturb calls made by the audio-driven block (src/main.py
lines 210-215) in one tick: when audio is enabled and the consumed loudness
exceeds 0.01, `int(min(10, L*200))` calls at oracle-supplied random
positions, each with magnitude `L*200*intensity`; otherwise none. -/
def audioCalls (audio_enabled : Bool) (audio_level intensity : ℚ)
    (randPos : ℕ → ℤ × ℤ) : List (ℤ × ℤ × ℚ) :=
  if audio_enabled ∧ audio_level > 0.01 then
    (List.range (pyInt (min 10 (audio_level * 200))).toNat).map
      (fun k => ((randPos k).1, (randPos k).2, audio_level * 200 * intensity))
  else []

/-- The audio-driven disturbance block (src/main.py lines 210-215) applied
to the wave field, with `random.randint` results supplied by the oracle
stream `randPos`. -/
def audioDisturb {h w : ℕ} (audio_enabled : Bool) (audio_level intensity : ℚ)
    (randPos : ℕ → ℤ × ℤ) (ripples : Ripples ℚ h w) : Ripples ℚ h w :=
  if audio_enabled ∧ audio_level > 0.01 then
    (List.range (pyInt (min 10 (audio_level * 200))).toNat).foldl
      (fun r k => r.disturb (randPos k).1 (randPos k).2 (audio_level * 200 * intensity))
      ripples
  else ripples

/-! ## Theorems -/

/-- Claim C1: for every pair of equal-size height grids, one call to
`Ripples.step` sets `current` at every cell (y, x) to
`DAMPING * (2*current - previous + 0.5*laplacian)` with `DAMPING = 0.995`,
where the laplacian is the sum of the four orthogonal neighbors of
`current[y,x]` minus `4*current[y,x]` with wraparound (toroidal) neighbor
lookup at every edge, and sets `previous` to the old `current` values. -/
theorem c1_step_update_rule {h w : ℕ} (r : Ripples ℚ h w) (y : ZMod h) (x : ZMod w) :
    r.step.current (y, x) =
      0.995 * (2 * r.current (y, x) - r.previous (y, x)
        + 0.5 * ((r.current (y - 1, x) + r.current (y + 1, x)
            + r.current (y, x - 1) + r.current (y, x + 1)) - 4 * r.current (y, x)))
      ∧ r.step.previous = r.current := by
  refine ⟨?_, rfl⟩
  show (2 * r.current (y, x) - r.previous (y, x) + 0.5 * r.lap (y, x)) * (DAMPING : ℚ) = _
  simp only [Ripples.lap, rollAxis0, rollAxis1, Int.cast_one, Int.cast_neg, sub_neg_eq_add]
  unfold DAMPING
  ring

/-- Claim C2: starting from the all-zero state, any number of `Ripples.step`
calls with no disturbances leaves every cell of both grids exactly zero. -/
theorem c2_zero_field_stable (w h n : ℕ) (p : ZMod h × ZMod w) :
    (Ripples.step^[n] (Ripples.init ℚ w h)).current p = 0 ∧
      (Ripples.step^[n] (Ripples.init ℚ w h)).previous p = 0 := by
  have hfix : Ripples.step (Ripples.init ℚ w h) = Ripples.init ℚ w h := by
    ext q
    · show (2 * (0:ℚ) - 0 + 0.5 * ((0 + 0 + 0 + 0) - 4 * 0)) * (DAMPING : ℚ) = 0
      ring
    · rfl
  rw [Function.iterate_fixed hfix]
  exact ⟨rfl, rfl⟩

/-- Claim C4: for every field state, integer coordinates (x, y) and
magnitude m, if `0 ≤ x < w` and `0 ≤ y < h` then `disturb` adds exactly m to
`current[y][x]` and leaves every other cell of `current` and all of
`previous` unchanged; otherwise it leaves the state entirely unchanged
(and, being total, raises no error). -/
theorem c4_disturb_spec {h w : ℕ} (r : Ripples ℚ h w) (x y : ℤ) (m : ℚ) :
    ((0 ≤ x ∧ x < (w:ℤ) ∧ 0 ≤ y ∧ y < (h:ℤ)) →
      ((r.disturb x y m).current ((y : ZMod h), (x : ZMod w))
          = r.current ((y : ZMod h), (x : ZMod w)) + m
        ∧ (∀ p : ZMod h × ZMod w, p ≠ ((y : ZMod h), (x : ZMod w)) →
            (r.disturb x y m).current p = r.current p)
        ∧ (r.disturb x y m).previous = r.previous))
    ∧ (¬(0 ≤ x ∧ x < (w:ℤ) ∧ 0 ≤ y ∧ y < (h:ℤ)) → r.disturb x y m = r) := by
  constructor
  · intro hb
    rw [Ripples.disturb, if_pos hb]
    exact ⟨by simp, fun p hp => by simp [hp], rfl⟩
  · intro hb
    rw [Ripples.disturb, if_neg hb]

/-- Witness for C4: on a 2×2 zero field, an in-bounds disturb at
(x, y) = (1, 0) adds the magnitude at that cell, and an out-of-bounds
disturb at (3, 0) is the identity. -/
theorem c4_disturb_spec_witness :
    (((0:ℤ) ≤ 1 ∧ (1:ℤ) < 2 ∧ (0:ℤ) ≤ 0 ∧ (0:ℤ) < 2)
      ∧ ((Ripples.init ℚ 2 2).disturb 1 0 5).current (((0:ℤ) : ZMod 2), ((1:ℤ) : ZMod 2))
          = (Ripples.init ℚ 2 2).current (((0:ℤ) : ZMod 2), ((1:ℤ) : ZMod 2)) + 5)
    ∧ (¬((0:ℤ) ≤ 3 ∧ (3:ℤ) < 2 ∧ (0:ℤ) ≤ 0 ∧ (0:ℤ) < 2)
      ∧ (Ripples.init ℚ 2 2).disturb 3 0 5 = Ripples.init ℚ 2 2) :=
  ⟨⟨by norm_num, ((c4_disturb_spec (Ripples.init ℚ 2 2) 1 0 5).1 (by norm_num)).1⟩,
   ⟨by norm_num, (c4_disturb_spec (Ripples.init ℚ 2 2) 3 0 5).2 (by norm_num)⟩⟩

set_option maxHeartbeats 3200000 in
/-- One `Ripples.step` of a 3×3 state given in integer-scaled form
advances the integer mirror `istep` and bumps the scale from `400 ^ n` to
`400 ^ (n+1)`. -/
theorem step_ofIM3 (a b : IM3) (n : ℕ) :
    Ripples.step
      { current := fun p => ((ofIM3 a p : ℚ)) / 400 ^ n,
        previous := fun p => ((ofIM3 b p : ℚ)) / 400 ^ n } =
      { current := fun p => ((ofIM3 (istep a b) p : ℚ)) / 400 ^ (n + 1),
        previous := fun p => ((ofIM3 (ismul 400 a) p : ℚ)) / 400 ^ (n + 1) } := by
  obtain ⟨⟨a00,a01,a02⟩,⟨a10,a11,a12⟩,⟨a20,a21,a22⟩⟩ := a
  obtain ⟨⟨b00,b01,b02⟩,⟨b10,b11,b12⟩,⟨b20,b21,b22⟩⟩ := b
  have h4 : ((400:ℚ)) ^ n ≠ 0 := by positivity
  have h400 : ((400:ℚ)) ^ (n + 1) = 400 ^ n * 400 := pow_succ _ _
  refine Ripples.ext ?_ ?_ <;> funext p <;> fin_cases p <;>
    · simp +decide only [Ripples.step, Ripples.lap, rollAxis0, rollAxis1,
        ofIM3, istep, ismul, pick3, if_true, if_false, Rat.cast_id, DAMPING]
      rw [h400]
      push_cast
      field_simp
      ring

/-- The trajectory of the 3×3 field disturbed once at (1, 1) with magnitude
1 equals the integer-scaled mirror trajectory divided by `400 ^ n`. -/
theorem state_corr (n : ℕ) :
    Ripples.step^[n] ((Ripples.init ℚ 3 3).disturb 1 1 1) =
      { current := fun p => ((ofIM3 (istate n).1 p : ℚ)) / 400 ^ n,
        previous := fun p => ((ofIM3 (istate n).2 p : ℚ)) / 400 ^ n } := by
  induction n with
  | zero =>
      simp only [Function.iterate_zero, id_eq, pow_zero]
      refine Ripples.ext ?_ ?_ <;> funext p <;> fin_cases p <;>
        simp +decide [Ripples.disturb, Ripples.init, istate, ofIM3, pick3]
  | succ n ih =>
      rw [Function.iterate_succ_apply', ih, step_ofIM3]
      simp only [istate]

/-- Energy of an integer-scaled 3×3 state is the integer sum of squares
divided by `400 ^ (2n)`. -/
theorem energy_scaled (m : IM3) (g : Grid ℚ 3 3) (n : ℕ) :
    energy { current := fun p => ((ofIM3 m p : ℚ)) / 400 ^ n, previous := g } =
      (ienergy m : ℚ) / 400 ^ (2 * n) := by
  obtain ⟨⟨a00,a01,a02⟩,⟨a10,a11,a12⟩,⟨a20,a21,a22⟩⟩ := m
  have hsum : ∀ f : ZMod 3 → ℚ, ∑ i, f i = f 0 + f 1 + f 2 := fun f => Fin.sum_univ_three f
  simp only [energy]
  rw [Fintype.sum_prod_type, hsum]
  simp +decide only [hsum, ofIM3, ienergy, pick3]
  rw [show 2 * n = n * 2 from Nat.mul_comm 2 n, pow_mul]
  push_cast
  ring

/-- If the integer mirror shows the scaled energy increasing from step k to
step k+1 (after accounting for the 400² scale difference), the true field
energy increases there. -/
theorem energy_incr (k : ℕ)
    (hk : 160000 * ienergy (istate k).1 < ienergy (istate (k + 1)).1) :
    energy (Ripples.step^[k] ((Ripples.init ℚ 3 3).disturb 1 1 1)) <
      energy (Ripples.step^[k + 1] ((Ripples.init ℚ 3 3).disturb 1 1 1)) := by
  rw [state_corr, state_corr, energy_scaled, energy_scaled]
  rw [div_lt_div_iff₀ (by positivity) (by positivity)]
  have h400 : ((400:ℚ)) ^ (2 * (k + 1)) = 400 ^ (2 * k) * 160000 := by
    rw [show 2 * (k + 1) = 2 * k + 2 from by ring, pow_add]
    norm_num
  rw [h400]
  calc (ienergy (istate k).1 : ℚ) * (400 ^ (2 * k) * 160000)
      = ((160000 * ienergy (istate k).1 : ℤ) : ℚ) * 400 ^ (2 * k) := by push_cast; ring
    _ < (ienergy (istate (k + 1)).1 : ℚ) * 400 ^ (2 * k) := by
        exact mul_lt_mul_of_pos_right (by exact_mod_cast hk) (by positivity)

/-- Counterexample to claim C3 as stated: the total field energy after a
single in-bounds disturbance of the all-zero field is not non-increasing
beyond a short initial window. On a 3×3 field disturbed once at (1, 1) with
magnitude 1, the energy strictly increases from step 50 to step 51 and again
from step 139 to step 140 (the oscillation recurs forever with period about
89 steps, so no finite initial window makes the claim true). -/
theorem c3_counterexample_energy_increases_late :
    energy (Ripples.step^[50] ((Ripples.init ℚ 3 3).disturb 1 1 1)) <
        energy (Ripples.step^[51] ((Ripples.init ℚ 3 3).disturb 1 1 1)) ∧
      energy (Ripples.step^[139] ((Ripples.init ℚ 3 3).disturb 1 1 1)) <
        energy (Ripples.step^[140] ((Ripples.init ℚ 3 3).disturb 1 1 1)) :=
  ⟨energy_incr 50 (by decide), energy_incr 139 (by decide)⟩

/-- Sums over a toroidal grid are invariant under translating the index. -/
theorem sum_shift {h w : ℕ} [NeZero h] [NeZero w] (F : ZMod h × ZMod w → ℚ)
    (a : ZMod h) (b : ZMod w) :
    ∑ p : ZMod h × ZMod w, F (p.1 + a, p.2 + b) = ∑ p : ZMod h × ZMod w, F p :=
  Equiv.sum_comp ((Equiv.addRight a).prodCongr (Equiv.addRight b)) F

/-- A shifted product sum can be rewritten with the shift moved to the other
factor (with opposite sign). -/
theorem pair_shift {h w : ℕ} [NeZero h] [NeZero w] (f g : Grid ℚ h w)
    (a : ZMod h) (b : ZMod w) :
    ∑ p : ZMod h × ZMod w, f p * g (p.1 + a, p.2 + b)
      = ∑ p : ZMod h × ZMod w, f (p.1 - a, p.2 - b) * g p := by
  have hshift := sum_shift (fun p => f (p.1 - a, p.2 - b) * g p) a b
  simpa [add_sub_cancel_right] using hshift

/-- Cauchy-Schwarz-style bound for one shifted product sum. -/
theorem pair_bound {h w : ℕ} [NeZero h] [NeZero w] (f g : Grid ℚ h w)
    (a : ZMod h) (b : ZMod w) :
    ∑ p : ZMod h × ZMod w, f p * g (p.1 + a, p.2 + b)
      ≤ (dotSum f f + dotSum g g) / 2 := by
  have hpt : ∀ p ∈ (Finset.univ : Finset (ZMod h × ZMod w)),
      f p * g (p.1 + a, p.2 + b) ≤ (f p * f p + g (p.1 + a, p.2 + b) * g (p.1 + a, p.2 + b)) / 2 :=
    fun p _ => by nlinarith [sq_nonneg (f p - g (p.1 + a, p.2 + b))]
  calc ∑ p : ZMod h × ZMod w, f p * g (p.1 + a, p.2 + b)
      ≤ ∑ p : ZMod h × ZMod w,
          (f p * f p + g (p.1 + a, p.2 + b) * g (p.1 + a, p.2 + b)) / 2 :=
        Finset.sum_le_sum hpt
    _ = ((∑ p : ZMod h × ZMod w, f p * f p)
          + ∑ p : ZMod h × ZMod w, g (p.1 + a, p.2 + b) * g (p.1 + a, p.2 + b)) / 2 := by
        rw [← Finset.sum_div, Finset.sum_add_distrib]
    _ = (dotSum f f + dotSum g g) / 2 := by
        rw [dotSum, dotSum, sum_shift (fun p => g p * g p) a b]

/-- The four-sum expansion of `dotSum f (halfNb g)`. -/
theorem dotSum_halfNb_expand {h w : ℕ} [NeZero h] [NeZero w] (f g : Grid ℚ h w) :
    dotSum f (halfNb g) =
      ((∑ p : ZMod h × ZMod w, f p * g (p.1 - 1, p.2))
        + (∑ p : ZMod h × ZMod w, f p * g (p.1 + 1, p.2))
        + (∑ p : ZMod h × ZMod w, f p * g (p.1, p.2 - 1))
        + (∑ p : ZMod h × ZMod w, f p * g (p.1, p.2 + 1))) / 2 := by
  rw [← Finset.sum_add_distrib, ← Finset.sum_add_distrib, ← Finset.sum_add_distrib,
    Finset.sum_div, dotSum]
  exact Finset.sum_congr rfl fun p _ => by rw [halfNb]; ring

/-- `halfNb` is symmetric for the grid inner product (summation by parts on
the torus). -/
theorem halfNb_symm {h w : ℕ} [NeZero h] [NeZero w] (f g : Grid ℚ h w) :
    dotSum f (halfNb g) = dotSum (halfNb f) g := by
  have h1 : ∑ p : ZMod h × ZMod w, f p * g (p.1 - 1, p.2)
      = ∑ p : ZMod h × ZMod w, g p * f (p.1 + 1, p.2) :=
    calc ∑ p : ZMod h × ZMod w, f p * g (p.1 - 1, p.2)
        = ∑ p : ZMod h × ZMod w, f (p.1 + 1, p.2) * g p := by
          simpa [← sub_eq_add_neg, sub_neg_eq_add] using pair_shift f g (-1) 0
      _ = ∑ p : ZMod h × ZMod w, g p * f (p.1 + 1, p.2) :=
          Finset.sum_congr rfl fun p _ => mul_comm _ _
  have h2 : ∑ p : ZMod h × ZMod w, f p * g (p.1 + 1, p.2)
      = ∑ p : ZMod h × ZMod w, g p * f (p.1 - 1, p.2) :=
    calc ∑ p : ZMod h × ZMod w, f p * g (p.1 + 1, p.2)
        = ∑ p : ZMod h × ZMod w, f (p.1 - 1, p.2) * g p := by
          simpa using pair_shift f g 1 0
      _ = ∑ p : ZMod h × ZMod w, g p * f (p.1 - 1, p.2) :=
          Finset.sum_congr rfl fun p _ => mul_comm _ _
  have h3 : ∑ p : ZMod h × ZMod w, f p * g (p.1, p.2 - 1)
      = ∑ p : ZMod h × ZMod w, g p * f (p.1, p.2 + 1) :=
    calc ∑ p : ZMod h × ZMod w, f p * g (p.1, p.2 - 1)
        = ∑ p : ZMod h × ZMod w, f (p.1, p.2 + 1) * g p := by
          simpa [← sub_eq_add_neg, sub_neg_eq_add] using pair_shift f g 0 (-1)
      _ = ∑ p : ZMod h × ZMod w, g p * f (p.1, p.2 + 1) :=
          Finset.sum_congr rfl fun p _ => mul_comm _ _
  have h4 : ∑ p : ZMod h × ZMod w, f p * g (p.1, p.2 + 1)
      = ∑ p : ZMod h × ZMod w, g p * f (p.1, p.2 - 1) :=
    calc ∑ p : ZMod h × ZMod w, f p * g (p.1, p.2 + 1)
        = ∑ p : ZMod h × ZMod w, f (p.1, p.2 - 1) * g p := by
          simpa using pair_shift f g 0 1
      _ = ∑ p : ZMod h × ZMod w, g p * f (p.1, p.2 - 1) :=
          Finset.sum_congr rfl fun p _ => mul_comm _ _
  have hr : dotSum (halfNb f) g = dotSum g (halfNb f) := by
    rw [dotSum, dotSum]
    exact Finset.sum_congr rfl fun p _ => mul_comm _ _
  rw [dotSum_halfNb_expand, hr, dotSum_halfNb_expand, h1, h2, h3, h4]
  ring

/-- The cross term of the Lyapunov quantity is dominated by the two square
sums. -/
theorem dotSum_halfNb_le {h w : ℕ} [NeZero h] [NeZero w] (f g : Grid ℚ h w) :
    dotSum f (halfNb g) ≤ dotSum f f + dotSum g g := by
  have b1 : ∑ p : ZMod h × ZMod w, f p * g (p.1 - 1, p.2)
      ≤ (dotSum f f + dotSum g g) / 2 := by
    simpa [← sub_eq_add_neg] using pair_bound f g (-1) 0
  have b2 : ∑ p : ZMod h × ZMod w, f p * g (p.1 + 1, p.2)
      ≤ (dotSum f f + dotSum g g) / 2 := by
    simpa using pair_bound f g 1 0
  have b3 : ∑ p : ZMod h × ZMod w, f p * g (p.1, p.2 - 1)
      ≤ (dotSum f f + dotSum g g) / 2 := by
    simpa [← sub_eq_add_neg] using pair_bound f g 0 (-1)
  have b4 : ∑ p : ZMod h × ZMod w, f p * g (p.1, p.2 + 1)
      ≤ (dotSum f f + dotSum g g) / 2 := by
    simpa using pair_bound f g 0 1
  rw [dotSum_halfNb_expand]
  linarith [b1, b2, b3, b4]

/-- `Ripples.step` rewritten through `halfNb`: the Laplacian update is half
the neighbor sum minus the previous buffer, all damped. -/
theorem step_eq_halfNb {h w : ℕ} (r : Ripples ℚ h w) :
    r.step = { current := fun p => (halfNb r.current p - r.previous p) * DAMPING,
               previous := r.current } := by
  refine Ripples.ext ?_ rfl
  funext p
  show (2 * r.current p - r.previous p + 0.5 * r.lap p) * (DAMPING : ℚ) = _
  simp only [Ripples.lap, rollAxis0, rollAxis1, Int.cast_one, Int.cast_neg,
    sub_neg_eq_add, halfNb, Rat.cast_id]
  ring

/-- The Lyapunov quantity contracts by exactly `DAMPING` at each
`Ripples.step`. -/
theorem lyapunov_step {h w : ℕ} [NeZero h] [NeZero w] (r : Ripples ℚ h w) :
    lyapunov r.step = DAMPING * lyapunov r := by
  obtain ⟨c, pr⟩ := r
  rw [step_eq_halfNb]
  simp only [lyapunov, dotSum]
  have e1 : ∑ p : ZMod h × ZMod w,
        (((halfNb c p - pr p) * DAMPING) * ((halfNb c p - pr p) * DAMPING))
      = DAMPING^2 * (∑ p : ZMod h × ZMod w, halfNb c p * halfNb c p)
        - 2 * DAMPING^2 * (∑ p : ZMod h × ZMod w, pr p * halfNb c p)
        + DAMPING^2 * (∑ p : ZMod h × ZMod w, pr p * pr p) := by
    rw [Finset.mul_sum, Finset.mul_sum, Finset.mul_sum, ← Finset.sum_sub_distrib,
      ← Finset.sum_add_distrib]
    exact Finset.sum_congr rfl fun p _ => by ring
  have e2 : ∑ p : ZMod h × ZMod w, (((halfNb c p - pr p) * DAMPING) * halfNb c p)
      = DAMPING * (∑ p : ZMod h × ZMod w, halfNb c p * halfNb c p)
        - DAMPING * (∑ p : ZMod h × ZMod w, pr p * halfNb c p) := by
    rw [Finset.mul_sum, Finset.mul_sum, ← Finset.sum_sub_distrib]
    exact Finset.sum_congr rfl fun p _ => by ring
  have e3 : ∑ p : ZMod h × ZMod w, c p * halfNb pr p
      = ∑ p : ZMod h × ZMod w, pr p * halfNb c p := by
    have hsym := halfNb_symm c pr
    simp only [dotSum] at hsym
    rw [hsym]
    exact Finset.sum_congr rfl fun p _ => mul_comm _ _
  rw [e1, e2, e3]
  ring

/-- Iterated form: after n steps the Lyapunov quantity is `DAMPING ^ n`
times its initial value. -/
theorem lyapunov_iterate {h w : ℕ} [NeZero h] [NeZero w] (r : Ripples ℚ h w) (n : ℕ) :
    lyapunov (Ripples.step^[n] r) = DAMPING ^ n * lyapunov r := by
  induction n with
  | zero => simp
  | succ n ih =>
      rw [Function.iterate_succ_apply', lyapunov_step, ih, pow_succ]
      ring

/-- The energy is the inner product of `current` with itself. -/
theorem energy_eq_dotSum {h w : ℕ} [NeZero h] [NeZero w] (r : Ripples ℚ h w) :
    energy r = dotSum r.current r.current := by
  rw [energy, dotSum]
  exact Finset.sum_congr rfl fun p _ => sq (r.current p) ▸ rfl

/-- The Lyapunov quantity dominates `(1 - DAMPING) * energy`. -/
theorem energy_le_lyapunov {h w : ℕ} [NeZero h] [NeZero w] (r : Ripples ℚ h w) :
    (1 - DAMPING) * energy r ≤ lyapunov r := by
  have hcross := dotSum_halfNb_le r.current r.previous
  have hd : (0:ℚ) ≤ DAMPING := by norm_num [DAMPING]
  have hmul : DAMPING * dotSum r.current (halfNb r.previous)
      ≤ DAMPING * (dotSum r.current r.current + dotSum r.previous r.previous) :=
    mul_le_mul_of_nonneg_left hcross hd
  rw [energy_eq_dotSum, lyapunov]
  nlinarith [hmul]

/-- The Lyapunov quantity of the all-zero field disturbed once in bounds
with magnitude M is exactly M². -/
theorem lyapunov_disturb_init {h w : ℕ} [NeZero h] [NeZero w] (x y : ℤ) (M : ℚ)
    (hb : 0 ≤ x ∧ x < (w : ℤ) ∧ 0 ≤ y ∧ y < (h : ℤ)) :
    lyapunov ((Ripples.init ℚ w h).disturb x y M) = M ^ 2 := by
  rw [Ripples.disturb, if_pos hb]
  simp [lyapunov, dotSum, halfNb, Ripples.init, mul_ite, ite_mul,
    Finset.sum_ite_eq', sq]

/-- Amended claim C3: after a single in-bounds disturb of magnitude M on the
all-zero field, the total field energy is bounded by the geometrically
decaying envelope `M² * DAMPING ^ n / (1 - DAMPING)` and therefore converges
toward zero; the counterexample shows the energy itself is not
non-increasing beyond any short initial window. -/
theorem c3_energy_decays_geometrically {h w : ℕ} [NeZero h] [NeZero w]
    (x y : ℤ) (M : ℚ) (hb : 0 ≤ x ∧ x < (w : ℤ) ∧ 0 ≤ y ∧ y < (h : ℤ)) :
    (∀ n : ℕ, energy (Ripples.step^[n] ((Ripples.init ℚ w h).disturb x y M))
        ≤ M ^ 2 * DAMPING ^ n / (1 - DAMPING))
    ∧ (∀ ε : ℚ, 0 < ε → ∃ N : ℕ, ∀ n ≥ N,
        energy (Ripples.step^[n] ((Ripples.init ℚ w h).disturb x y M)) < ε) := by
  have hdpos : (0:ℚ) ≤ DAMPING := by norm_num [DAMPING]
  have hdlt : DAMPING < 1 := by norm_num [DAMPING]
  have hgap : (0:ℚ) < 1 - DAMPING := by norm_num [DAMPING]
  have hbound : ∀ n : ℕ, energy (Ripples.step^[n] ((Ripples.init ℚ w h).disturb x y M))
      ≤ M ^ 2 * DAMPING ^ n / (1 - DAMPING) := by
    intro n
    have h1 := energy_le_lyapunov (Ripples.step^[n] ((Ripples.init ℚ w h).disturb x y M))
    rw [lyapunov_iterate, lyapunov_disturb_init x y M hb] at h1
    rw [le_div_iff₀ hgap]
    calc energy (Ripples.step^[n] ((Ripples.init ℚ w h).disturb x y M)) * (1 - DAMPING)
        = (1 - DAMPING) * energy (Ripples.step^[n] ((Ripples.init ℚ w h).disturb x y M)) :=
          mul_comm _ _
      _ ≤ DAMPING ^ n * M ^ 2 := h1
      _ = M ^ 2 * DAMPING ^ n := mul_comm _ _
  refine ⟨hbound, fun ε hε => ?_⟩
  set C : ℚ := M ^ 2 / (1 - DAMPING) with hC
  have hC0 : 0 ≤ C := div_nonneg (sq_nonneg M) (le_of_lt hgap)
  have hC1 : (0:ℚ) < C + 1 := by linarith
  obtain ⟨N, hN⟩ := exists_pow_lt_of_lt_one (div_pos hε hC1) hdlt
  refine ⟨N, fun n hn => ?_⟩
  have hchain : energy (Ripples.step^[n] ((Ripples.init ℚ w h).disturb x y M))
      ≤ (C + 1) * DAMPING ^ N := by
    calc energy (Ripples.step^[n] ((Ripples.init ℚ w h).disturb x y M))
        ≤ M ^ 2 * DAMPING ^ n / (1 - DAMPING) := hbound n
      _ = C * DAMPING ^ n := by rw [hC]; ring
      _ ≤ (C + 1) * DAMPING ^ n :=
          mul_le_mul_of_nonneg_right (by linarith) (pow_nonneg hdpos n)
      _ ≤ (C + 1) * DAMPING ^ N :=
          mul_le_mul_of_nonneg_left
            (pow_le_pow_of_le_one hdpos (le_of_lt hdlt) hn) (le_of_lt hC1)
  calc energy (Ripples.step^[n] ((Ripples.init ℚ w h).disturb x y M))
      ≤ (C + 1) * DAMPING ^ N := hchain
    _ < (C + 1) * (ε / (C + 1)) := mul_lt_mul_of_pos_left hN hC1
    _ = ε := mul_div_cancel₀ ε (ne_of_gt hC1)

/-- Witness for the amended claim C3 at a concrete instance: on a 3×3 field,
the in-bounds disturb at (1, 1) with magnitude 1 satisfies the geometric
energy bound at step 1, and the convergence clause applies at ε = 1/2. -/
theorem c3_energy_decays_geometrically_witness :
    ((0:ℤ) ≤ 1 ∧ (1:ℤ) < (3:ℕ) ∧ (0:ℤ) ≤ 1 ∧ (1:ℤ) < (3:ℕ))
    ∧ energy (Ripples.step^[1] ((Ripples.init ℚ 3 3).disturb 1 1 1))
        ≤ (1:ℚ) ^ 2 * DAMPING ^ 1 / (1 - DAMPING)
    ∧ ((0:ℚ) < 1/2 ∧ ∃ N : ℕ, ∀ n ≥ N,
        energy (Ripples.step^[n] ((Ripples.init ℚ 3 3).disturb 1 1 1)) < 1/2) :=
  ⟨by norm_num,
   (c3_energy_decays_geometrically 1 1 1 (by norm_num)).1 1,
   by norm_num,
   (c3_energy_decays_geometrically 1 1 1 (by norm_num)).2 (1/2) (by norm_num)⟩

/-- Gradients of the all-zero height map vanish (axis 0). -/
theorem npGradient0_zero {hh ww : ℕ} (i : Fin hh) (j : Fin ww) :
    npGradient0 (fun _ _ => (0:ℝ)) i j = 0 := by
  unfold npGradient0 cellVal
  split
  · rfl
  · split
    · simp
    · split <;> simp

/-- Gradients of the all-zero height map vanish (axis 1). -/
theorem npGradient1_zero {hh ww : ℕ} (i : Fin hh) (j : Fin ww) :
    npGradient1 (fun _ _ => (0:ℝ)) i j = 0 := by
  unfold npGradient1 cellVal
  split
  · rfl
  · split
    · simp
    · split <;> simp

/-- `np.clip` is the identity between its bounds. -/
theorem npClip_id {x lo hi : ℝ} (h1 : lo ≤ x) (h2 : x ≤ hi) : npClip x lo hi = x := by
  rw [npClip, max_eq_right h1, min_eq_right h2]

/-- The code's lighting value at any cell of the all-zero height map: the
z-component survives, scaled by the 1e-8-guarded norm. -/
theorem c5_code_value :
    lighting (fun _ _ => (0:ℝ)) true (0 : Fin 2) (0 : Fin 2)
      = 0.5 / (0.5 + 1e-8) * (1.0 / Real.sqrt (0.5 * 0.5 + (-0.5) * (-0.5) + 1.0 * 1.0)) := by
  have hsq : Real.sqrt ((0.5:ℝ) * 0.5) = 0.5 := Real.sqrt_mul_self (by norm_num)
  have hl1 : (1:ℝ) ≤ Real.sqrt (0.5 * 0.5 + (-0.5) * (-0.5) + 1.0 * 1.0) := by
    rw [show (0.5 * 0.5 + (-0.5) * (-0.5) + 1.0 * 1.0 : ℝ) = 1.5 by norm_num]
    calc (1:ℝ) = Real.sqrt 1 := Real.sqrt_one.symm
      _ ≤ Real.sqrt 1.5 := Real.sqrt_le_sqrt (by norm_num)
  have hlpos : (0:ℝ) < Real.sqrt (0.5 * 0.5 + (-0.5) * (-0.5) + 1.0 * 1.0) := by
    linarith
  unfold lighting
  simp only [eq_self_iff_true, if_true, npGradient0_zero, npGradient1_zero, neg_zero,
    zero_div, zero_mul, zero_add, add_zero, hsq]
  refine npClip_id ?_ ?_
  · have h0 : (0:ℝ) ≤ 0.5 / (0.5 + 1e-8)
        * (1.0 / Real.sqrt (0.5 * 0.5 + (-0.5) * (-0.5) + 1.0 * 1.0)) := by positivity
    linarith
  · have ha : (0.5:ℝ) / (0.5 + 1e-8) ≤ 1 := by
      rw [div_le_one (by norm_num)]
      norm_num
    have hb : (1.0:ℝ) / Real.sqrt (0.5 * 0.5 + (-0.5) * (-0.5) + 1.0 * 1.0) ≤ 1 := by
      rw [div_le_one hlpos]
      linarith
    have hb0 : (0:ℝ) ≤ 1.0 / Real.sqrt (0.5 * 0.5 + (-0.5) * (-0.5) + 1.0 * 1.0) := by
      positivity
    have := mul_le_one₀ ha hb0 hb
    linarith

/-- The spec-claimed lighting value at any cell of the all-zero height map:
the exactly normalized z-component. -/
theorem c5_spec_value :
    lightingSpec (fun _ _ => (0:ℝ)) true (0 : Fin 2) (0 : Fin 2)
      = 0.5 / 0.5 * (1.0 / Real.sqrt (0.5 * 0.5 + (-0.5) * (-0.5) + 1.0 * 1.0)) := by
  have hsq : Real.sqrt ((0.5:ℝ) * 0.5) = 0.5 := Real.sqrt_mul_self (by norm_num)
  have hl1 : (1:ℝ) ≤ Real.sqrt (0.5 * 0.5 + (-0.5) * (-0.5) + 1.0 * 1.0) := by
    rw [show (0.5 * 0.5 + (-0.5) * (-0.5) + 1.0 * 1.0 : ℝ) = 1.5 by norm_num]
    calc (1:ℝ) = Real.sqrt 1 := Real.sqrt_one.symm
      _ ≤ Real.sqrt 1.5 := Real.sqrt_le_sqrt (by norm_num)
  have hlpos : (0:ℝ) < Real.sqrt (0.5 * 0.5 + (-0.5) * (-0.5) + 1.0 * 1.0) := by
    linarith
  unfold lightingSpec
  simp only [eq_self_iff_true, if_true, npGradient0_zero, npGradient1_zero, neg_zero,
    zero_div, zero_mul, zero_add, add_zero, hsq]
  refine npClip_id ?_ ?_
  · have h0 : (0:ℝ) ≤ 0.5 / 0.5
        * (1.0 / Real.sqrt (0.5 * 0.5 + (-0.5) * (-0.5) + 1.0 * 1.0)) := by positivity
    linarith
  · have ha : (0.5:ℝ) / 0.5 ≤ 1 := by norm_num
    have hb : (1.0:ℝ) / Real.sqrt (0.5 * 0.5 + (-0.5) * (-0.5) + 1.0 * 1.0) ≤ 1 := by
      rw [div_le_one hlpos]
      linarith
    have hb0 : (0:ℝ) ≤ 1.0 / Real.sqrt (0.5 * 0.5 + (-0.5) * (-0.5) + 1.0 * 1.0) := by
      positivity
    have := mul_le_one₀ ha hb0 hb
    linarith

/-- Counterexample to claim C5 as stated: the code divides the surface
normal by `norm + 1e-8`, not by `norm`, so the per-cell lighting scalar is
not the clamped dot product with the exactly normalized normal. On the
all-zero height map (gradients zero, normal (0, 0, 0.5)) the code value is
strictly smaller than the claimed value. -/
theorem c5_counterexample_lighting_not_exactly_normalized :
    lighting (fun _ _ => (0:ℝ)) true (0 : Fin 2) (0 : Fin 2)
      ≠ lightingSpec (fun _ _ => (0:ℝ)) true (0 : Fin 2) (0 : Fin 2) := by
  apply ne_of_lt
  rw [c5_code_value, c5_spec_value]
  have hlpos : (0:ℝ) < Real.sqrt (0.5 * 0.5 + (-0.5) * (-0.5) + 1.0 * 1.0) := by
    have : (0:ℝ) < Real.sqrt 1.5 := Real.sqrt_pos.mpr (by norm_num)
    rw [show (0.5 * 0.5 + (-0.5) * (-0.5) + 1.0 * 1.0 : ℝ) = 1.5 by norm_num]
    exact this
  refine mul_lt_mul_of_pos_right ?_ (by positivity)
  norm_num

/-- Amended claim C5: with normal shading enabled, the lighting scalar at
every cell is the dot product of the surface normal `(-gx, -gy, 0.5)` with
the normalized light direction `(0.5, -0.5, 1.0)/|…|`, divided by the
guarded norm `sqrt(nx²+ny²+nz²) + 1e-8` (not the exact norm), clamped to
[0, 1], where gx and gy are the `np.gradient` finite differences (central
in the interior, one-sided at the edges); with shading disabled it is the
uniform constant 0.7. -/
theorem c5_lighting_formula {hh ww : ℕ} (a : Fin hh → Fin ww → ℝ) (ns : Bool)
    (i : Fin hh) (j : Fin ww) :
    lighting a ns i j =
      if ns then
        npClip
          ((((-(npGradient1 a i j)) * 0.5 + (-(npGradient0 a i j)) * (-0.5) + 0.5 * 1.0)
              / Real.sqrt (0.5 * 0.5 + (-0.5) * (-0.5) + 1.0 * 1.0))
            / (Real.sqrt ((-(npGradient1 a i j)) * (-(npGradient1 a i j))
                + (-(npGradient0 a i j)) * (-(npGradient0 a i j)) + 0.5 * 0.5) + 1e-8))
          0.0 1.0
      else 0.7 := by
  cases ns with
  | false => rfl
  | true =>
      rw [lighting]
      simp only [eq_self_iff_true, if_true]
      congr 1
      have hnorm : (0:ℝ) < Real.sqrt ((-(npGradient1 a i j)) * (-(npGradient1 a i j))
          + (-(npGradient0 a i j)) * (-(npGradient0 a i j)) + 0.5 * 0.5) + 1e-8 := by
        have := Real.sqrt_nonneg ((-(npGradient1 a i j)) * (-(npGradient1 a i j))
          + (-(npGradient0 a i j)) * (-(npGradient0 a i j)) + 0.5 * 0.5)
        nlinarith
      have hl : (0:ℝ) < Real.sqrt (0.5 * 0.5 + (-0.5) * (-0.5) + 1.0 * 1.0) := by
        have : (0:ℝ) < Real.sqrt 1.5 := Real.sqrt_pos.mpr (by norm_num)
        rw [show (0.5 * 0.5 + (-0.5) * (-0.5) + 1.0 * 1.0 : ℝ) = 1.5 by norm_num]
        exact this
      field_simp
      ring

/-- Claim C6: the per-frame rendering computation is a deterministic pure
function of (height-field snapshot, blend factor t, intensity,
normal-shading flag): two invocations with identical values of these four
inputs produce identical RGB output buffers. -/
theorem c6_render_deterministic {hh ww : ℕ} (a1 a2 : Fin hh → Fin ww → ℝ)
    (t1 t2 s1 s2 : ℝ) (f1 f2 : Bool)
    (ha : a1 = a2) (ht : t1 = t2) (hs : s1 = s2) (hf : f1 = f2) :
    render a1 t1 s1 f1 = render a2 t2 s2 f2 := by
  rw [ha, ht, hs, hf]

/-- Witness for C6 at a concrete input: rendering the 2×2 zero height map
twice with t = 0, intensity = 1 and shading on gives identical buffers. -/
theorem c6_render_deterministic_witness :
    (((fun _ _ => (0:ℝ)) : Fin 2 → Fin 2 → ℝ) = (fun _ _ => (0:ℝ)) ∧ (0:ℝ) = 0 ∧ (1:ℝ) = 1
      ∧ (true : Bool) = true)
    ∧ render ((fun _ _ => 0) : Fin 2 → Fin 2 → ℝ) 0 1 true
        = render ((fun _ _ => 0) : Fin 2 → Fin 2 → ℝ) 0 1 true :=
  ⟨⟨rfl, rfl, rfl, rfl⟩,
   c6_render_deterministic (fun _ _ => 0) (fun _ _ => 0) 0 0 1 1 true true rfl rfl rfl rfl⟩

/-- Claim C8: a pointer-drag motion sample with a recorded previous sample
injects a disturbance of magnitude `min(100, sqrt(dx² + dy²)) * 0.5`, which
is at most 50 regardless of the reported displacement. -/
theorem c8_drag_magnitude_capped {h w : ℕ} (px py mx my : ℤ) (r : Ripples ℝ h w) :
    (motionPressed (some (px, py)) mx my r).2
        = r.disturb mx my
            (min 100 (Real.sqrt (((mx - px : ℤ) : ℝ) ^ 2 + ((my - py : ℤ) : ℝ) ^ 2)) * 0.5)
      ∧ min (100:ℝ) (Real.sqrt (((mx - px : ℤ) : ℝ) ^ 2 + ((my - py : ℤ) : ℝ) ^ 2)) * 0.5
          ≤ 50 := by
  constructor
  · rfl
  · have h1 : min (100:ℝ) (Real.sqrt (((mx - px : ℤ) : ℝ) ^ 2 + ((my - py : ℤ) : ℝ) ^ 2))
        ≤ 100 := min_le_left _ _
    linarith

/-- Claim C9: each tick the day/night phase advances by exactly 0.005, and
the blend factor `(sin p + 1)/2` lies in [0, 1] for every phase and is
2π-periodic. -/
theorem c9_day_night_clock :
    (∀ p : ℝ, dayAdvance p = p + 0.005)
    ∧ (∀ p : ℝ, 0 ≤ blendFactor p ∧ blendFactor p ≤ 1)
    ∧ (∀ p : ℝ, blendFactor p = blendFactor (p + 2 * Real.pi)) := by
  refine ⟨fun p => rfl, fun p => ⟨?_, ?_⟩, fun p => ?_⟩
  · have := Real.neg_one_le_sin p
    rw [blendFactor]
    linarith
  · have := Real.sin_le_one p
    rw [blendFactor]
    linarith
  · rw [blendFactor, blendFactor, Real.sin_add_two_pi]

/-- Claim C10: a motion sample that arrives while the button is held but
with no recorded previous sample injects no disturbance at all; the handler
only records that sample's position as the new previous sample. -/
theorem c10_first_motion_no_disturbance {h w : ℕ} (mx my : ℤ) (r : Ripples ℝ h w) :
    motionPressed none mx my r = (some (mx, my), r) := rfl

/-- `int(min(10, L*200))` equals `min(10, floor(L*200))` once L clears the
0.01 threshold (both sides are nonnegative there, so truncation is floor,
and floor commutes with the min against the integer 10). -/
theorem pyInt_min_floor (L : ℚ) (hL : L > 0.01) :
    pyInt (min 10 (L * 200)) = min 10 ⌊L * 200⌋ := by
  have hpos : (0:ℚ) ≤ L * 200 := by linarith
  have hmin : (0:ℚ) ≤ min 10 (L * 200) := le_min (by norm_num) hpos
  rw [pyInt, if_pos hmin]
  rcases le_total (10:ℚ) (L * 200) with hc | hc
  · rw [min_eq_left hc, min_eq_left (Int.le_floor.mpr (by exact_mod_cast hc))]
    norm_num
  · rw [min_eq_right hc, min_eq_right ?_]
    calc ⌊L * 200⌋ ≤ ⌊(10:ℚ)⌋ := Int.floor_le_floor hc
      _ = 10 := by norm_num

/-- Claim C7: per tick, with the audio flag set and consumed loudness
L > 0.01, exactly `min(10, floor(L*200))` disturbances are injected, each at
an oracle-random position (in-grid whenever the `randint` oracle honors its
range) with uncapped magnitude `L*200*intensity`; with L ≤ 0 or the flag
unset, none are injected; and the block's effect on the field is exactly
folding `disturb` over that call list. -/
theorem c7_audio_injection {h w : ℕ} (enabled : Bool) (L s : ℚ)
    (randPos : ℕ → ℤ × ℤ) (r : Ripples ℚ h w) :
    (enabled = true → L > 0.01 →
      (audioCalls enabled L s randPos).length = (min 10 ⌊L * 200⌋).toNat
      ∧ (∀ c ∈ audioCalls enabled L s randPos, c.2.2 = L * 200 * s)
      ∧ ((∀ k : ℕ, 0 ≤ (randPos k).1 ∧ (randPos k).1 ≤ (WIDTH:ℤ) - 1
            ∧ 0 ≤ (randPos k).2 ∧ (randPos k).2 ≤ (HEIGHT:ℤ) - 1) →
          ∀ c ∈ audioCalls enabled L s randPos,
            0 ≤ c.1 ∧ c.1 ≤ (WIDTH:ℤ) - 1 ∧ 0 ≤ c.2.1 ∧ c.2.1 ≤ (HEIGHT:ℤ) - 1))
    ∧ (L ≤ 0 → audioCalls enabled L s randPos = [])
    ∧ (enabled = false → audioCalls enabled L s randPos = [])
    ∧ audioDisturb enabled L s randPos r
        = (audioCalls enabled L s randPos).foldl
            (fun acc c => acc.disturb c.1 c.2.1 c.2.2) r := by
  refine ⟨?_, ?_, ?_, ?_⟩
  · intro he hL
    subst he
    rw [audioCalls, if_pos ⟨rfl, hL⟩]
    refine ⟨?_, ?_, ?_⟩
    · rw [List.length_map, List.length_range, pyInt_min_floor L hL]
    · intro c hc
      simp only [List.mem_map, List.mem_range] at hc
      obtain ⟨k, _, hk⟩ := hc
      rw [← hk]
    · intro horacle c hc
      simp only [List.mem_map, List.mem_range] at hc
      obtain ⟨k, _, hk⟩ := hc
      subst hk
      exact ⟨(horacle k).1, (horacle k).2.1, (horacle k).2.2.1, (horacle k).2.2.2⟩
  · intro hL
    rw [audioCalls, if_neg]
    rintro ⟨_, hgt⟩
    linarith
  · intro he
    subst he
    rw [audioCalls, if_neg]
    rintro ⟨hfalse, _⟩
    exact Bool.false_ne_true hfalse
  · rw [audioDisturb, audioCalls]
    by_cases hcond : enabled = true ∧ L > 0.01
    · rw [if_pos hcond, if_pos hcond, List.foldl_map]
    · rw [if_neg hcond, if_neg hcond, List.foldl_nil]

/-- Witness for C7 at a concrete input: loudness 1/50 (> 0.01) with the flag
set injects exactly `min(10, floor(4)) = 4` disturbances. -/
theorem c7_audio_injection_witness :
    ((true : Bool) = true ∧ (1/50 : ℚ) > 0.01)
    ∧ (audioCalls true (1/50) 1 (fun _ => (0, 0))).length
        = (min 10 ⌊(1/50 : ℚ) * 200⌋).toNat :=
  ⟨⟨rfl, by norm_num⟩,
   ((c7_audio_injection true (1/50) 1 (fun _ => (0, 0)) (Ripples.init ℚ 2 2)).1
      rfl (by norm_num)).1⟩
